import Mathlib

/-
  Verification of the Photo-Video-Tagger metadata pipeline.

  The definitions below are a shallow embedding of the TypeScript source:
  - src/types.ts               (data model)
  - src/App.tsx                (recordEdit, handleUndo, handleRedo, processImages,
                                handleFilesSelected, handleExportCsv)
  - src/components/ImageCard.tsx (createEditorialPrefix, handleToggleEditorial)
  - src/services/sessionService.ts (importSessionFromZip)
  - src/services/quotaService.ts (getTodaysTokenUsage, saveTodaysTokenUsage)
  - src/services/geminiService.ts (CATEGORY_TRANSLATIONS, getFriendlyErrorMessage)

  Modelling conventions:
  - JS strings are modelled as Lean String; the JS methods toUpperCase,
    toLowerCase and trim are modelled by the char-wise jsUpper, jsLower and
    jsTrim below (they agree with the JS methods on the ASCII inputs used
    in concrete examples, and no theorem depends on the case mapping).
  - A JS object of type Partial of MetadataHistoryState is modelled as a
    record of Option fields; an absent property is none.
  - The external AI collaborator, the browser runtime (object URLs, base64)
    and the JSON / ZIP libraries are modelled as oracles or abstract
    constructors; everything the repository itself computes is translated.
-/

namespace PhotoTagger

/-- ProcessingState from src/types.ts. -/
inductive ProcessingState where
  | idle
  | processing
  | success
  | error
deriving DecidableEq, Repr

/-- A JS object of type Partial of MetadataHistoryState (src/types.ts):
each property may be present (some) or absent (none).  History snapshots
and the update argument of recordEdit both have this shape. -/
structure Snapshot where
  editedTitle : Option String := none
  editedDescription : Option String := none
  editedKeywords : Option String := none
  editedCategory : Option String := none
  editedAltText : Option String := none
  editedIsEditorial : Option Bool := none
  editedEditorialCity : Option String := none
  editedEditorialRegion : Option String := none
  editedEditorialDate : Option String := none
  editedEditorialFact : Option String := none
deriving DecidableEq, Repr

/-- The live (total) editable fields of an item, as initialised by
handleFilesSelected in src/App.tsx. -/
structure LiveMeta where
  editedTitle : String := ""
  editedDescription : String := ""
  editedKeywords : String := ""
  editedCategory : String := ""
  editedAltText : String := ""
  editedIsEditorial : Bool := false
  editedEditorialCity : String := ""
  editedEditorialRegion : String := ""
  editedEditorialDate : String := ""
  editedEditorialFact : String := ""
deriving DecidableEq, Repr

/-- StockMetadata from src/types.ts: the record returned by the metadata
generation collaborator.  Optional TS fields are Option. -/
structure StockMetadata where
  title : String
  description : String
  keywords : List String
  category : Option String := none
  isEditorial : Bool := false
  editorialCity : Option String := none
  editorialRegion : Option String := none
  editorialDate : Option String := none
  editorialFact : Option String := none
deriving DecidableEq, Repr

/-- ImageFile from src/types.ts, restricted to the fields the verified
operations read or write.  The raw binary handle and runtime-only flags are
omitted; the live editable fields are grouped in the meta sub-record. -/
structure ImageFile where
  id : String
  fileName : String
  state : ProcessingState
  error : Option String := none
  metadata : Option StockMetadata := none
  meta : LiveMeta := {}
  history : List Snapshot := []
  historyIndex : Int := -1
  isRestored : Bool := false
deriving DecidableEq, Repr

/-- JS spread merge of two partial objects: fields present in u override
fields of s (the expression with braces and three dots in recordEdit). -/
def mergeSnap (s u : Snapshot) : Snapshot where
  editedTitle := u.editedTitle.orElse fun _ => s.editedTitle
  editedDescription := u.editedDescription.orElse fun _ => s.editedDescription
  editedKeywords := u.editedKeywords.orElse fun _ => s.editedKeywords
  editedCategory := u.editedCategory.orElse fun _ => s.editedCategory
  editedAltText := u.editedAltText.orElse fun _ => s.editedAltText
  editedIsEditorial := u.editedIsEditorial.orElse fun _ => s.editedIsEditorial
  editedEditorialCity := u.editedEditorialCity.orElse fun _ => s.editedEditorialCity
  editedEditorialRegion := u.editedEditorialRegion.orElse fun _ => s.editedEditorialRegion
  editedEditorialDate := u.editedEditorialDate.orElse fun _ => s.editedEditorialDate
  editedEditorialFact := u.editedEditorialFact.orElse fun _ => s.editedEditorialFact

/-- JS spread of a partial object onto the live fields of an item:
present fields overwrite, absent fields are kept. -/
def applyUpdate (m : LiveMeta) (u : Snapshot) : LiveMeta where
  editedTitle := u.editedTitle.getD m.editedTitle
  editedDescription := u.editedDescription.getD m.editedDescription
  editedKeywords := u.editedKeywords.getD m.editedKeywords
  editedCategory := u.editedCategory.getD m.editedCategory
  editedAltText := u.editedAltText.getD m.editedAltText
  editedIsEditorial := u.editedIsEditorial.getD m.editedIsEditorial
  editedEditorialCity := u.editedEditorialCity.getD m.editedEditorialCity
  editedEditorialRegion := u.editedEditorialRegion.getD m.editedEditorialRegion
  editedEditorialDate := u.editedEditorialDate.getD m.editedEditorialDate
  editedEditorialFact := u.editedEditorialFact.getD m.editedEditorialFact

/-- All fields of a total state, as a snapshot with every property present
(the object pushed onto the history by processImages). -/
def snapOfLive (m : LiveMeta) : Snapshot where
  editedTitle := some m.editedTitle
  editedDescription := some m.editedDescription
  editedKeywords := some m.editedKeywords
  editedCategory := some m.editedCategory
  editedAltText := some m.editedAltText
  editedIsEditorial := some m.editedIsEditorial
  editedEditorialCity := some m.editedEditorialCity
  editedEditorialRegion := some m.editedEditorialRegion
  editedEditorialDate := some m.editedEditorialDate
  editedEditorialFact := some m.editedEditorialFact

/-- JS array indexing with a possibly negative index: history at
historyIndex, undefined when out of range (the or-empty-object fallback in
recordEdit maps undefined to the empty snapshot at the use site). -/
def jsIndex (h : List Snapshot) (i : Int) : Option Snapshot :=
  if i < 0 then none else h.get? i.toNat

/-- JS Array.prototype.slice with begin 0 and a signed end index. -/
def sliceTo (l : List Snapshot) (e : Int) : List Snapshot :=
  if e < 0 then l.take (l.length - e.natAbs) else l.take e.toNat

/-- recordEdit from src/App.tsx, lines 147-161, restricted to the matching
item: merge the update onto the snapshot at the cursor (empty object when
the cursor is out of range), truncate after the cursor, append, move the
cursor to the new last index, and spread the update onto the live fields. -/
def recordEdit (f : ImageFile) (updates : Snapshot) : ImageFile :=
  let latestState := (jsIndex f.history f.historyIndex).getD {}
  let newState := mergeSnap latestState updates
  let newHistory := sliceTo f.history (f.historyIndex + 1) ++ [newState]
  { f with meta := applyUpdate f.meta updates
           history := newHistory
           historyIndex := (newHistory.length : Int) - 1 }

/-- handleUndo from src/App.tsx, lines 163-171, restricted to the matching
item: when the cursor is positive, decrement it and spread the snapshot at
the decremented position onto the live fields, else no-op. -/
def handleUndo (f : ImageFile) : ImageFile :=
  if 0 < f.historyIndex then
    let prevIndex := f.historyIndex - 1
    { f with meta := applyUpdate f.meta ((jsIndex f.history prevIndex).getD {})
             historyIndex := prevIndex }
  else f

/-- handleRedo from src/App.tsx, lines 173-181, restricted to the matching
item: when the cursor is before the last index, increment it and spread the
snapshot at the incremented position onto the live fields, else no-op. -/
def handleRedo (f : ImageFile) : ImageFile :=
  if f.historyIndex < (f.history.length : Int) - 1 then
    let nextIndex := f.historyIndex + 1
    { f with meta := applyUpdate f.meta ((jsIndex f.history nextIndex).getD {})
             historyIndex := nextIndex }
  else f

/-- A freshly uploaded item as created by handleFilesSelected in
src/App.tsx, lines 271-283: empty fields, empty history, cursor -1. -/
def mkFreshItem (id fileName : String) : ImageFile :=
  { id := id
    fileName := fileName
    state := ProcessingState.idle
    meta := {}
    history := []
    historyIndex := -1
    isRestored := false }

/-- The history-index invariant stated by the spec: the cursor is in range
whenever the history is non-empty, and equals -1 exactly when the history
is empty. -/
def histInv (f : ImageFile) : Prop :=
  (f.history ≠ [] → 0 ≤ f.historyIndex ∧ f.historyIndex < (f.history.length : Int))
    ∧ (f.historyIndex = -1 ↔ f.history = [])

instance (f : ImageFile) : Decidable (histInv f) := by
  unfold histInv; infer_instance

/-
  Kernel-evaluable string helpers.  Lean core implements many String
  operations by well-founded recursion over byte positions, which blocks
  kernel evaluation; the char-level versions below compute the same
  functions by structural recursion.  They model the JS string methods:
  toUpperCase and toLowerCase (char-wise, exact on ASCII), trim,
  startsWith, substring from an index, split on a one-character separator,
  Array.prototype.join, and replace of every double-quote character.
-/

def jsUpper (s : String) : String := String.mk (s.data.map Char.toUpper)

def jsLower (s : String) : String := String.mk (s.data.map Char.toLower)

def jsTrim (s : String) : String :=
  String.mk (((s.data.dropWhile Char.isWhitespace).reverse.dropWhile Char.isWhitespace).reverse)

def jsStartsWith (s pre : String) : Bool := List.isPrefixOf pre.data s.data

def jsDrop (s : String) (n : Nat) : String := String.mk (s.data.drop n)

def jsLength (s : String) : Nat := s.data.length

def splitCharAux (sep : Char) : List Char → List Char → List String
  | [], cur => [String.mk cur.reverse]
  | c :: rest, cur =>
      if c = sep then String.mk cur.reverse :: splitCharAux sep rest []
      else splitCharAux sep rest (c :: cur)

/-- JS String.prototype.split with a one-character separator: the empty
string yields one empty piece, a trailing separator yields a trailing
empty piece. -/
def jsSplitChar (s : String) (sep : Char) : List String := splitCharAux sep s.data []

/-- JS Array.prototype.join. -/
def joinWith (sep : String) : List String → String
  | [] => ""
  | [x] => x
  | x :: xs => x ++ sep ++ joinWith sep xs

def doubleQuotesAux : List Char → List Char
  | [] => []
  | c :: rest =>
      if c = '"' then '"' :: '"' :: doubleQuotesAux rest
      else c :: doubleQuotesAux rest

/-- The regex replace used by handleExportCsv: every double quote becomes
two double quotes. -/
def jsDoubleQuotes (s : String) : String := String.mk (doubleQuotesAux s.data)

/-- Numeric value of a list of decimal digit characters. -/
def digitsVal (l : List Char) : Nat := l.foldl (fun n c => n * 10 + (c.toNat - 48)) 0

/-- getFriendlyErrorMessage from src/services/geminiService.ts, lines
254-268, modelled on the message string of a thrown Error value (the only
error shape the batch loop produces through the collaborator). -/
def getFriendlyErrorMessage (m : String) : String :=
  if m = "RAW_NOT_SUPPORTED" then "RAW форматы не поддерживаются браузером. Используйте JPEG/PNG."
  else if m = "FORMAT_NOT_SUPPORTED" then "Файл не поддерживается браузером."
  else if m = "VIDEO_LOAD_ERROR" then "Ошибка чтения видео. Формат не поддерживается браузером или файл поврежден."
  else if m = "VIDEO_TIMEOUT" then "Тайм-аут обработки видео. Файл может быть слишком большим или кодек не поддерживается."
  else if m = "QUOTA_EXCEEDED" then "Превышена квота API (429). Пожалуйста, проверьте биллинг в Google Cloud Console или подождите сброса лимитов."
  else if m = "RATE_LIMIT_EXCEEDED" then "Слишком много запросов. Подождите немного."
  else if m = "CONTENT_SAFETY_VIOLATION" then "Контент заблокирован фильтрами безопасности."
  else m

/-- JS Set of strings under insertion order: add keeps the first insertion
position and ignores duplicates (Array.from then restores that order). -/
def insertSet (s : List String) (x : String) : List String :=
  if x ∈ s then s else s ++ [x]

/-- Keyword seeding from one comma separated string, as in processImages
lines 194-196: split on commas, trim, lower-case, add each to the set. -/
def addKwString (s : List String) (kw : String) : List String :=
  ((jsSplitChar kw ',').map fun k => jsLower (jsTrim k)).foldl insertSet s

/-- Initial batch context seeded from already successful registry items,
processImages lines 188-198. -/
def initContext (registry : List ImageFile) : List String × List String :=
  registry.foldl
    (fun acc f =>
      if f.state = ProcessingState.success then
        (if f.meta.editedTitle ≠ "" then acc.1 ++ [f.meta.editedTitle] else acc.1,
         if f.meta.editedKeywords ≠ "" then addKwString acc.2 f.meta.editedKeywords else acc.2)
      else acc)
    ([], [])

/-- The keyword list written on success, processImages lines 235-242:
prepend the editorial keyword when the collaborator flags the item
editorial and no case-insensitive match is present. -/
def finalKeywords (md : StockMetadata) : List String :=
  if md.isEditorial ∧ ¬ md.keywords.any (fun k => jsLower k = "editorial") then
    "editorial" :: md.keywords
  else md.keywords

/-- The first history snapshot built from a generation result,
processImages lines 244-255. -/
def successLive (md : StockMetadata) : LiveMeta where
  editedTitle := md.title
  editedDescription := md.description
  editedKeywords := joinWith ", " (finalKeywords md)
  editedCategory := md.category.getD ""
  editedAltText := ""
  editedIsEditorial := md.isEditorial
  editedEditorialCity := md.editorialCity.getD ""
  editedEditorialRegion := md.editorialRegion.getD ""
  editedEditorialDate := md.editorialDate.getD ""
  editedEditorialFact := md.editorialFact.getD ""

/-- The success write of processImages, lines 257-259: mark success, store
the raw metadata, spread the new state over the live fields, and reset the
history to that single snapshot with the cursor at 0. -/
def applySuccess (f : ImageFile) (md : StockMetadata) : ImageFile :=
  let st := successLive md
  { f with state := ProcessingState.success
           metadata := some md
           meta := st
           history := [snapOfLive st]
           historyIndex := 0 }

/-- One collaborator invocation with the rolling context captured at call
time (the batchContext object of processImages lines 220-223). -/
structure BatchCall where
  id : String
  previousTitles : List String
  previousKeywords : List String
deriving DecidableEq, Repr

/-- State threaded through the batch loop of processImages: the registry,
the rolling titles list, the rolling lower-cased keyword set, and the trace
of collaborator calls made so far. -/
structure BatchAcc where
  registry : List ImageFile
  titles : List String
  keywords : List String
  calls : List BatchCall
deriving DecidableEq, Repr

/-- The registry write marking an item as being processed, processImages
line 217. -/
def setProcessing (f : ImageFile) : ImageFile :=
  { f with state := ProcessingState.processing }

/-- The registry write recording a failure, processImages line 263. -/
def setError (msg : String) (f : ImageFile) : ImageFile :=
  { f with state := ProcessingState.error, error := some msg }

/-- One iteration of the batch loop of processImages, lines 209-264, for
the item img taken from the files argument.  The collaborator is the
oracle gen, keyed by item id. -/
def batchStep (gen : String → Except String StockMetadata) (img : ImageFile)
    (acc : BatchAcc) : BatchAcc :=
  if img.state = ProcessingState.success then acc
  else if img.isRestored then acc
  else
    let reg1 := acc.registry.map fun f => if f.id = img.id then setProcessing f else f
    let call : BatchCall := ⟨img.id, acc.titles, acc.keywords⟩
    match gen img.id with
    | Except.ok md =>
        let titles := if md.title ≠ "" then acc.titles ++ [md.title] else acc.titles
        let kws := md.keywords.foldl (fun s k => insertSet s (jsLower k)) acc.keywords
        let reg2 := reg1.map fun f => if f.id = img.id then applySuccess f md else f
        ⟨reg2, titles, kws, acc.calls ++ [call]⟩
    | Except.error e =>
        let msg := getFriendlyErrorMessage e
        let reg2 := reg1.map fun f => if f.id = img.id then setError msg f else f
        ⟨reg2, acc.titles, acc.keywords, acc.calls ++ [call]⟩

/-- The batch loop of processImages lines 201-265: before each item the
cancellation flag is read (modelled as a function of the loop position);
when set, the loop breaks and the remaining items are not touched. -/
def runBatchAux (gen : String → Except String StockMetadata) (abortAt : Nat → Bool) :
    Nat → List ImageFile → BatchAcc → BatchAcc
  | _, [], acc => acc
  | k, img :: rest, acc =>
      if abortAt k then acc
      else runBatchAux gen abortAt (k + 1) rest (batchStep gen img acc)

/-- processImages from src/App.tsx, lines 183-267: seed the context from
the registry, then run the sequential loop over the files argument. -/
def processImages (gen : String → Except String StockMetadata) (abortAt : Nat → Bool)
    (registry files : List ImageFile) : BatchAcc :=
  let ctx := initContext registry
  runBatchAux gen abortAt 0 files ⟨registry, ctx.1, ctx.2, []⟩

/-- A cancellation flag that is never set. -/
def noAbort : Nat → Bool := fun _ => false

/-- A cancellation flag that is set after n items have been handled and
before item n + 1 starts, and stays set. -/
def abortFrom (n : Nat) : Nat → Bool := fun k => n ≤ k

/-- Upper-cased en-US month names, as produced by toLocaleDateString with
the long month option followed by toUpperCase. -/
def monthNames : List String :=
  ["JANUARY", "FEBRUARY", "MARCH", "APRIL", "MAY", "JUNE", "JULY",
   "AUGUST", "SEPTEMBER", "OCTOBER", "NOVEMBER", "DECEMBER"]

def isLeapYear (y : Nat) : Bool :=
  decide ((y % 4 = 0 ∧ y % 100 ≠ 0) ∨ y % 400 = 0)

def daysInMonth (y m : Nat) : Nat :=
  if m = 2 then (if isLeapYear y then 29 else 28)
  else if m = 4 ∨ m = 6 ∨ m = 9 ∨ m = 11 then 30
  else 31

/-- Strict parse of a YYYY-MM-DD date string.  This models the JS Date
validity check in createEditorialPrefix for strings in the documented
YYYY-MM-DD shape of the editedEditorialDate field; anything else counts as
invalid and yields no date part. -/
def parseYmd (s : String) : Option (Nat × Nat × Nat) :=
  match jsSplitChar s '-' with
  | [ys, ms, ds] =>
      if ys.data.length = 4 ∧ ms.data.length = 2 ∧ ds.data.length = 2
          ∧ ys.data.all Char.isDigit ∧ ms.data.all Char.isDigit ∧ ds.data.all Char.isDigit then
        let y := digitsVal ys.data
        let m := digitsVal ms.data
        let d := digitsVal ds.data
        if 1 ≤ m ∧ m ≤ 12 ∧ 1 ≤ d ∧ d ≤ daysInMonth y m then some (y, m, d) else none
      else none
  | _ => none

/-- The en-US long date rendering used by createEditorialPrefix, already
upper-cased: MONTH D, YYYY. -/
def formatEnUsDate (y m d : Nat) : String :=
  monthNames.getD (m - 1) "" ++ " " ++ toString d ++ ", " ++ toString y

/-- createEditorialPrefix from src/components/ImageCard.tsx, lines
111-131: upper-cased city and region joined by a comma, the formatted date
joined with a dash, a trailing colon when anything is present. -/
def createEditorialPrefix (city region date : String) : String :=
  if city = "" ∧ region = "" ∧ date = "" then ""
  else
    let cityPart := if city ≠ "" then jsUpper city else ""
    let regionPart := if region ≠ "" then jsUpper region else ""
    let locationPart := joinWith ", " ([cityPart, regionPart].filter (· ≠ ""))
    let datePart :=
      if date ≠ "" then
        match parseYmd date with
        | some (y, m, d) => formatEnUsDate y m d
        | none => ""
      else ""
    let joined := joinWith " - " ([locationPart, datePart].filter (· ≠ ""))
    if joined ≠ "" then joined ++ ":" else ""

/-- The keyword tokenisation used by handleToggleEditorial: split on
commas, trim each token, drop empties. -/
def splitKeywords (s : String) : List String :=
  ((jsSplitChar s ',').map jsTrim).filter (· ≠ "")

/-- handleToggleEditorial from src/components/ImageCard.tsx, lines
219-259, composed with the recordEdit it triggers through
onEditorialUpdate (src/App.tsx line 517-519).  Toggling on adds the
editorial keyword when absent; toggling off removes it, strips the
computed prefix from the description when the description starts with it,
and clears the editorial sub-fields. -/
def handleToggleEditorial (f : ImageFile) (isEditorial : Bool) : ImageFile :=
  let keywords := splitKeywords f.meta.editedKeywords
  let editorialIdx := keywords.findIdx? fun k => jsLower k = "editorial"
  if isEditorial then
    let keywords' := if editorialIdx = none then "editorial" :: keywords else keywords
    recordEdit f
      { editedIsEditorial := some true
        editedKeywords := some (joinWith ", " keywords') }
  else
    let keywords' := match editorialIdx with
      | some i => keywords.eraseIdx i
      | none => keywords
    let pfx := createEditorialPrefix f.meta.editedEditorialCity
      f.meta.editedEditorialRegion f.meta.editedEditorialDate
    let baseDescription :=
      if pfx ≠ "" ∧ jsStartsWith f.meta.editedDescription pfx then
        jsTrim (jsDrop f.meta.editedDescription (jsLength pfx))
      else f.meta.editedDescription
    recordEdit f
      { editedIsEditorial := some false
        editedKeywords := some (joinWith ", " keywords')
        editedDescription := some baseDescription
        editedEditorialCity := some ""
        editedEditorialRegion := some ""
        editedEditorialDate := some ""
        editedEditorialFact := some "" }

/-- CSV cell used for Filename and Categories in handleExportCsv: wrapped
in double quotes with the content unchanged. -/
def csvQuote (s : String) : String := "\"" ++ s ++ "\""

/-- CSV cell used for Description and Keywords in handleExportCsv: wrapped
in double quotes with every internal double quote doubled. -/
def csvEscaped (s : String) : String := "\"" ++ jsDoubleQuotes s ++ "\""

/-- CATEGORY_TRANSLATIONS from src/services/geminiService.ts, lines 26-53,
as an association list in source order. -/
def categoryTranslations : List (String × String) :=
  [("Абстракция", "Abstract"),
   ("Животные и дикая природа", "Animals/Wildlife"),
   ("Искусство", "The Arts"),
   ("Фоны и текстуры", "Backgrounds/Textures"),
   ("Красота и мода", "Beauty/Fashion"),
   ("Здания и достопримечательности", "Buildings/Landmarks"),
   ("Бизнес и финансы", "Business/Finance"),
   ("Знаменитости", "Celebrities"),
   ("Образование", "Education"),
   ("Еда и напитки", "Food and Drink"),
   ("Здравоохранение и медицина", "Healthcare/Medical"),
   ("Праздники", "Holidays"),
   ("Промышленность", "Industrial"),
   ("Интерьеры", "Interiors"),
   ("Разное", "Miscellaneous"),
   ("Природа", "Nature"),
   ("Предметы", "Objects"),
   ("Парки и природа", "Parks/Outdoor"),
   ("Люди", "People"),
   ("Религия", "Religion"),
   ("Наука", "Science"),
   ("Знаки and символы", "Signs/Symbols"),
   ("Спорт и отдых", "Sports/Recreation"),
   ("Технологии", "Technology"),
   ("Транспорт", "Transportation"),
   ("Винтаж", "Vintage")]

/-- The category cell source: the translation table entry when one exists,
else the raw category verbatim (the or-fallback in handleExportCsv). -/
def translateCategory (raw : String) : String :=
  ((categoryTranslations.find? fun p => p.1 = raw).map Prod.snd).getD raw

/-- The fixed CSV header cells of handleExportCsv, src/App.tsx line 374. -/
def csvHeaders : List String :=
  ["Filename", "Description", "Keywords", "Categories", "Editorial",
   "Mature content", "illustration"]

/-- One CSV row of handleExportCsv, src/App.tsx lines 376-398. -/
def csvRow (f : ImageFile) : String :=
  joinWith ","
    [csvQuote f.fileName,
     csvEscaped f.meta.editedDescription,
     csvEscaped f.meta.editedKeywords,
     csvQuote (translateCategory f.meta.editedCategory),
     if f.meta.editedIsEditorial then csvQuote "Yes" else csvQuote "No",
     csvQuote "No",
     csvQuote "No"]

/-- handleExportCsv from src/App.tsx, lines 369-405: none when there is no
successful item (the early return produces no file), else the byte-order
marker followed by the header line and one row per successful item,
newline separated. -/
def handleExportCsv (files : List ImageFile) : Option String :=
  if (files.filter fun f => f.state = ProcessingState.success).isEmpty then none
  else
    some ("\uFEFF" ++ joinWith "\n"
      (joinWith "," csvHeaders ::
        (files.filter fun f => f.state = ProcessingState.success).map csvRow))

/-- One manifest entry of the session archive.  JSON fields that may be
absent or empty are modelled as strings where the empty string is falsy,
matching the or-fallbacks of importSessionFromZip. -/
structure ManifestEntry where
  id : String
  fileName : String := ""
  fileType : String := ""
deriving DecidableEq, Repr

/-- The parsed content of the manifest document: either a JSON array of
entries or some non-array JSON value. -/
inductive SessionDoc where
  | arr (entries : List ManifestEntry)
  | nonArray
deriving DecidableEq, Repr

/-- A session archive as importSessionFromZip reads it: the manifest when
the entry session.json exists, and the thumbnail payloads keyed by item id
(the files named thumbnails slash id dot jpg, base64 content).  JSZip and
JSON.parse are external libraries and are modelled by this pre-read shape. -/
structure SessionZip where
  sessionJson : Option SessionDoc
  thumbs : List (String × String)
deriving DecidableEq, Repr

/-- A renderable preview handle: either an object URL over the decoded
thumbnail blob, or the generated No Preview placeholder SVG data URL. -/
inductive Preview where
  | fromBlob (base64 : String)
  | placeholderSvg
deriving DecidableEq, Repr

/-- An item reconstructed by importSessionFromZip: the stand-in binary
handle is a dummy file holding the fixed restored-content marker. -/
structure RestoredItem where
  id : String
  fileContent : String
  fileName : String
  fileType : String
  previewUrl : Preview
  thumbnailData : String
  isRestored : Bool
deriving DecidableEq, Repr

def lookupThumb (z : SessionZip) (id : String) : Option String :=
  (z.thumbs.find? fun t => t.1 = id).map Prod.snd

/-- Reconstruction of one manifest entry, importSessionFromZip lines
174-203: thumbnail present gives an object URL preview and the base64
thumbnail data; thumbnail absent gives the placeholder preview and no
thumbnail data; the dummy file and the restored flag are always set. -/
def restoreEntry (z : SessionZip) (item : ManifestEntry) : RestoredItem :=
  let fileName := if item.fileName = "" then "restored.jpg" else item.fileName
  let fileType := if item.fileType = "" then "image/jpeg" else item.fileType
  match lookupThumb z item.id with
  | some data =>
      { id := item.id, fileContent := "(restored-content)"
        fileName := fileName, fileType := fileType
        previewUrl := Preview.fromBlob data
        thumbnailData := "data:image/jpeg;base64," ++ data
        isRestored := true }
  | none =>
      { id := item.id, fileContent := "(restored-content)"
        fileName := fileName, fileType := fileType
        previewUrl := Preview.placeholderSvg
        thumbnailData := ""
        isRestored := true }

/-- importSessionFromZip from src/services/sessionService.ts, lines
157-206.  The original JS messages quote the file name with single quotes;
the quotes are elided here. -/
def importSessionFromZip (z : SessionZip) : Except String (List RestoredItem) :=
  match z.sessionJson with
  | none => Except.error "Invalid session file: session.json not found inside archive."
  | some SessionDoc.nonArray => Except.error "Invalid session metadata: root must be an array."
  | some (SessionDoc.arr entries) => Except.ok (entries.map (restoreEntry z))

/-- The record persisted by the quota service under the fixed storage key. -/
structure StoredUsage where
  date : String
  tokens : Nat
deriving DecidableEq, Repr

/-- getTodaysTokenUsage from src/services/quotaService.ts, lines 9-25, as
a function of the stored record and the current date string: same-day
records are returned as is, anything else is removed and reads as 0.  The
result pairs the post-read store content with the returned number. -/
def getTodaysTokenUsage (store : Option StoredUsage) (today : String) :
    Option StoredUsage × Nat :=
  match store with
  | some u => if u.date = today then (some u, u.tokens) else (none, 0)
  | none => (none, 0)

/-- saveTodaysTokenUsage from src/services/quotaService.ts, lines 27-35:
overwrite the stored record with the current date and the given total. -/
def saveTodaysTokenUsage (_store : Option StoredUsage) (today : String) (tokens : Nat) :
    Option StoredUsage :=
  some ⟨today, tokens⟩

/-- Presence inclusion between two partial snapshots: every field present
in a is also present in b.  Along any history chain built by recordEdit
the presence sets grow, so consecutive snapshots satisfy this. -/
def presentLE (a b : Snapshot) : Prop :=
  (a.editedTitle.isSome → b.editedTitle.isSome)
    ∧ (a.editedDescription.isSome → b.editedDescription.isSome)
    ∧ (a.editedKeywords.isSome → b.editedKeywords.isSome)
    ∧ (a.editedCategory.isSome → b.editedCategory.isSome)
    ∧ (a.editedAltText.isSome → b.editedAltText.isSome)
    ∧ (a.editedIsEditorial.isSome → b.editedIsEditorial.isSome)
    ∧ (a.editedEditorialCity.isSome → b.editedEditorialCity.isSome)
    ∧ (a.editedEditorialRegion.isSome → b.editedEditorialRegion.isSome)
    ∧ (a.editedEditorialDate.isSome → b.editedEditorialDate.isSome)
    ∧ (a.editedEditorialFact.isSome → b.editedEditorialFact.isSome)

instance (a b : Snapshot) : Decidable (presentLE a b) := by
  unfold presentLE; infer_instance

-- Helper lemmas ------------------------------------------------------------

theorem histInv_of_parts (f : ImageFile)
    (h1 : f.history ≠ [] → 0 ≤ f.historyIndex ∧ f.historyIndex < (f.history.length : Int))
    (h2 : f.historyIndex = -1 ↔ f.history = []) : histInv f :=
  ⟨h1, h2⟩

theorem recordEdit_history (f : ImageFile) (u : Snapshot) :
    (recordEdit f u).history =
      sliceTo f.history (f.historyIndex + 1)
        ++ [mergeSnap ((jsIndex f.history f.historyIndex).getD {}) u] := rfl

theorem recordEdit_historyIndex (f : ImageFile) (u : Snapshot) :
    (recordEdit f u).historyIndex = ((recordEdit f u).history.length : Int) - 1 := rfl

theorem histInv_recordEdit (f : ImageFile) (u : Snapshot) : histInv (recordEdit f u) := by
  apply histInv_of_parts
  · intro _
    rw [recordEdit_historyIndex, recordEdit_history]
    simp
  · rw [recordEdit_historyIndex, recordEdit_history]
    constructor
    · intro hx
      exfalso
      simp at hx
    · intro hx
      exact absurd hx (by simp)

theorem histInv_applySuccess (f : ImageFile) (md : StockMetadata) :
    histInv (applySuccess f md) := by
  apply histInv_of_parts
  · intro _
    constructor <;> simp [applySuccess]
  · simp [applySuccess]

theorem handleUndo_eq_pos (f : ImageFile) (hpos : 0 < f.historyIndex) :
    handleUndo f =
      { f with meta := applyUpdate f.meta ((jsIndex f.history (f.historyIndex - 1)).getD {})
               historyIndex := f.historyIndex - 1 } := by
  unfold handleUndo
  rw [if_pos hpos]

theorem handleRedo_eq_lt (f : ImageFile) (hlt : f.historyIndex < (f.history.length : Int) - 1) :
    handleRedo f =
      { f with meta := applyUpdate f.meta ((jsIndex f.history (f.historyIndex + 1)).getD {})
               historyIndex := f.historyIndex + 1 } := by
  unfold handleRedo
  rw [if_pos hlt]

theorem histInv_handleUndo (f : ImageFile) (h : histInv f) : histInv (handleUndo f) := by
  by_cases hpos : 0 < f.historyIndex
  · rw [handleUndo_eq_pos f hpos]
    obtain ⟨hb, hiff⟩ := h
    have hne : f.history ≠ [] := by
      intro hnil
      have := hiff.mpr hnil
      omega
    obtain ⟨h0, hlt⟩ := hb hne
    apply histInv_of_parts
    · intro _
      constructor <;> (simp only [] ; omega)
    · constructor
      · intro hx
        exfalso
        simp only [] at hx
        omega
      · intro hx
        exact absurd hx hne
  · unfold handleUndo
    rw [if_neg hpos]
    exact h

theorem histInv_handleRedo (f : ImageFile) (h : histInv f) : histInv (handleRedo f) := by
  by_cases hlt : f.historyIndex < (f.history.length : Int) - 1
  · rw [handleRedo_eq_lt f hlt]
    obtain ⟨hb, hiff⟩ := h
    have hne : f.history ≠ [] := by
      intro hnil
      have h1 := hiff.mpr hnil
      rw [hnil] at hlt
      simp at hlt
      omega
    obtain ⟨h0, _⟩ := hb hne
    apply histInv_of_parts
    · intro _
      constructor <;> (simp only [] ; omega)
    · constructor
      · intro hx
        exfalso
        simp only [] at hx
        omega
      · intro hx
        exact absurd hx hne
  · unfold handleRedo
    rw [if_neg hlt]
    exact h

theorem histInv_map_update (l : List ImageFile) (upd : ImageFile → ImageFile) (tid : String)
    (h : ∀ g ∈ l, histInv g) (hupd : ∀ g, histInv g → histInv (upd g)) :
    ∀ g ∈ l.map (fun f => if f.id = tid then upd f else f), histInv g := by
  intro g hg
  rw [List.mem_map] at hg
  obtain ⟨a, ha, rfl⟩ := hg
  split
  · exact hupd a (h a ha)
  · exact h a ha

theorem batchStep_histInv (gen : String → Except String StockMetadata) (img : ImageFile)
    (acc : BatchAcc) (h : ∀ g ∈ acc.registry, histInv g) :
    ∀ g ∈ (batchStep gen img acc).registry, histInv g := by
  unfold batchStep
  split
  · exact h
  split
  · exact h
  have h1 : ∀ g ∈ acc.registry.map
      (fun f => if f.id = img.id then setProcessing f else f),
      histInv g :=
    histInv_map_update _ _ _ h (fun g hg => hg)
  split
  · exact histInv_map_update _ _ _ h1 (fun g _ => histInv_applySuccess g _)
  · exact histInv_map_update _ _ _ h1 (fun g hg => hg)

theorem runBatchAux_histInv (gen : String → Except String StockMetadata)
    (abortAt : Nat → Bool) (files : List ImageFile) :
    ∀ (k : Nat) (acc : BatchAcc), (∀ g ∈ acc.registry, histInv g) →
      ∀ g ∈ (runBatchAux gen abortAt k files acc).registry, histInv g := by
  induction files with
  | nil => intro k acc h; exact h
  | cons img rest ih =>
      intro k acc h
      unfold runBatchAux
      split
      · exact h
      · exact ih (k + 1) (batchStep gen img acc) (batchStep_histInv gen img acc h)

theorem optRoundtrip {α : Type} (x : α) (a b : Option α)
    (hle : a.isSome → b.isSome) (hag : b.getD x = x) : b.getD (a.getD x) = x := by
  cases a <;> cases b <;> simp_all

theorem applyUpdate_roundtrip (m : LiveMeta) (a b : Snapshot)
    (hle : presentLE a b) (hag : applyUpdate m b = m) :
    applyUpdate (applyUpdate m a) b = m := by
  obtain ⟨l1, l2, l3, l4, l5, l6, l7, l8, l9, l10⟩ := hle
  cases m with
  | mk t d k c alt ed city reg dt fact =>
      simp only [applyUpdate, LiveMeta.mk.injEq] at hag ⊢
      obtain ⟨g1, g2, g3, g4, g5, g6, g7, g8, g9, g10⟩ := hag
      exact ⟨optRoundtrip _ _ _ l1 g1, optRoundtrip _ _ _ l2 g2, optRoundtrip _ _ _ l3 g3,
        optRoundtrip _ _ _ l4 g4, optRoundtrip _ _ _ l5 g5, optRoundtrip _ _ _ l6 g6,
        optRoundtrip _ _ _ l7 g7, optRoundtrip _ _ _ l8 g8, optRoundtrip _ _ _ l9 g9,
        optRoundtrip _ _ _ l10 g10⟩

/-- Agreement of the live fields with the snapshot at the cursor: applying
that snapshot to the live state changes nothing.  Every state the tracker
operations produce satisfies this (lemmas below), which is what makes the
undo-redo round trip exact. -/
def liveConsistent (f : ImageFile) : Prop :=
  applyUpdate f.meta ((jsIndex f.history f.historyIndex).getD {}) = f.meta

theorem optGetD_idem {α : Type} (x : α) (s : Option α) : s.getD (s.getD x) = s.getD x := by
  cases s <;> rfl

theorem applyUpdate_idem (m : LiveMeta) (s : Snapshot) :
    applyUpdate (applyUpdate m s) s = applyUpdate m s := by
  cases m with
  | mk t d k c alt ed city reg dt fact =>
      simp only [applyUpdate, LiveMeta.mk.injEq]
      exact ⟨optGetD_idem _ _, optGetD_idem _ _, optGetD_idem _ _, optGetD_idem _ _,
        optGetD_idem _ _, optGetD_idem _ _, optGetD_idem _ _, optGetD_idem _ _,
        optGetD_idem _ _, optGetD_idem _ _⟩

theorem optGetD_merge {α : Type} (x : α) (a u : Option α) (h : a.getD x = x) :
    ((u.orElse fun _ => a).getD (u.getD x)) = u.getD x := by
  cases u
  · exact h
  · rfl

theorem recordEdit_cursor_snapshot (f : ImageFile) (u : Snapshot) :
    jsIndex (recordEdit f u).history (recordEdit f u).historyIndex
      = some (mergeSnap ((jsIndex f.history f.historyIndex).getD {}) u) := by
  rw [recordEdit_historyIndex, recordEdit_history]
  unfold jsIndex
  rw [if_neg (by simp)]
  have hn : ((((sliceTo f.history (f.historyIndex + 1)).length
      + 1 : Nat) : Int) - 1).toNat = (sliceTo f.history (f.historyIndex + 1)).length := by
    omega
  rw [List.length_append]
  simp only [List.length_singleton]
  rw [hn]
  rw [List.get?_eq_getElem?]
  exact List.getElem?_concat_length _ _

theorem liveConsistent_mkFreshItem (id name : String) :
    liveConsistent (mkFreshItem id name) := rfl

theorem liveConsistent_recordEdit (f : ImageFile) (u : Snapshot) (h : liveConsistent f) :
    liveConsistent (recordEdit f u) := by
  unfold liveConsistent at h ⊢
  rw [recordEdit_cursor_snapshot]
  show applyUpdate (applyUpdate f.meta u)
      (mergeSnap ((jsIndex f.history f.historyIndex).getD {}) u) = applyUpdate f.meta u
  cases hm : f.meta with
  | mk t d k c alt ed city reg dt fact =>
      rw [hm] at h
      simp only [applyUpdate, mergeSnap, LiveMeta.mk.injEq] at h ⊢
      obtain ⟨g1, g2, g3, g4, g5, g6, g7, g8, g9, g10⟩ := h
      exact ⟨optGetD_merge _ _ _ g1, optGetD_merge _ _ _ g2, optGetD_merge _ _ _ g3,
        optGetD_merge _ _ _ g4, optGetD_merge _ _ _ g5, optGetD_merge _ _ _ g6,
        optGetD_merge _ _ _ g7, optGetD_merge _ _ _ g8, optGetD_merge _ _ _ g9,
        optGetD_merge _ _ _ g10⟩

theorem liveConsistent_handleUndo (f : ImageFile) (h : liveConsistent f) :
    liveConsistent (handleUndo f) := by
  by_cases hpos : 0 < f.historyIndex
  · rw [handleUndo_eq_pos f hpos]
    show applyUpdate (applyUpdate f.meta ((jsIndex f.history (f.historyIndex - 1)).getD {}))
        ((jsIndex f.history (f.historyIndex - 1)).getD {})
      = applyUpdate f.meta ((jsIndex f.history (f.historyIndex - 1)).getD {})
    exact applyUpdate_idem _ _
  · unfold handleUndo
    rw [if_neg hpos]
    exact h

theorem liveConsistent_handleRedo (f : ImageFile) (h : liveConsistent f) :
    liveConsistent (handleRedo f) := by
  by_cases hlt : f.historyIndex < (f.history.length : Int) - 1
  · rw [handleRedo_eq_lt f hlt]
    show applyUpdate (applyUpdate f.meta ((jsIndex f.history (f.historyIndex + 1)).getD {}))
        ((jsIndex f.history (f.historyIndex + 1)).getD {})
      = applyUpdate f.meta ((jsIndex f.history (f.historyIndex + 1)).getD {})
    exact applyUpdate_idem _ _
  · unfold handleRedo
    rw [if_neg hlt]
    exact h

theorem liveConsistent_applySuccess (f : ImageFile) (md : StockMetadata) :
    liveConsistent (applySuccess f md) := rfl

theorem optIsSome_orElse {α : Type} (a u : Option α) (h : a.isSome = true) :
    (u.orElse fun _ => a).isSome = true := by
  cases u
  · exact h
  · rfl

/-- The snapshot appended by recordEdit presents every field the previous
cursor snapshot presents: presence only grows along the history, which is
the chain condition assumed by the round-trip theorem. -/
theorem presentLE_mergeSnap (s u : Snapshot) : presentLE s (mergeSnap s u) :=
  ⟨fun h => optIsSome_orElse _ _ h, fun h => optIsSome_orElse _ _ h,
   fun h => optIsSome_orElse _ _ h, fun h => optIsSome_orElse _ _ h,
   fun h => optIsSome_orElse _ _ h, fun h => optIsSome_orElse _ _ h,
   fun h => optIsSome_orElse _ _ h, fun h => optIsSome_orElse _ _ h,
   fun h => optIsSome_orElse _ _ h, fun h => optIsSome_orElse _ _ h⟩

-- Claim C1 ------------------------------------------------------------------

/-- C1: for every item in the registry, after any of the operations
(fresh upload, recordEdit, undo, redo, batch processing writing the first
snapshot), the history-index invariant holds: the cursor is in range when
the history is non-empty, and equals -1 exactly when the history is empty. -/
theorem history_index_invariant :
    (∀ id name, histInv (mkFreshItem id name)) ∧
    (∀ (f : ImageFile) (u : Snapshot), histInv (recordEdit f u)) ∧
    (∀ f : ImageFile, histInv f → histInv (handleUndo f)) ∧
    (∀ f : ImageFile, histInv f → histInv (handleRedo f)) ∧
    (∀ (gen : String → Except String StockMetadata) (abortAt : Nat → Bool)
        (registry files : List ImageFile),
      (∀ g ∈ registry, histInv g) →
      ∀ g ∈ (processImages gen abortAt registry files).registry, histInv g) := by
  refine ⟨?_, histInv_recordEdit, histInv_handleUndo, histInv_handleRedo, ?_⟩
  · intro id name
    apply histInv_of_parts
    · intro hx
      exact absurd rfl hx
    · exact ⟨fun _ => rfl, fun _ => rfl⟩
  · intro gen abortAt registry files h
    exact runBatchAux_histInv gen abortAt files 0 _ h

/-- Witness for C1 at a concrete item: the invariant after an edit
followed by an undo on a fresh upload. -/
theorem history_index_invariant_witness :
    histInv (handleUndo (recordEdit (mkFreshItem "w" "w.jpg") { editedTitle := some "t" })) :=
  history_index_invariant.2.2.1 _ (by decide)

-- Claim C2 ------------------------------------------------------------------

/-- C2: recordEdit keeps exactly the snapshots up to the cursor, appends
the merge of the cursor snapshot with the partial update, puts the cursor
at the new last index (so no redo branch survives), and applies the same
updated fields to the live editable state. -/
theorem recordEdit_spec (f : ImageFile) (u : Snapshot) (hinv : histInv f) :
    (recordEdit f u).history.length = (f.historyIndex + 1).toNat + 1 ∧
    (∀ j : Nat, (j : Int) ≤ f.historyIndex → (recordEdit f u).history[j]? = f.history[j]?) ∧
    (recordEdit f u).history.getLast? =
      some (mergeSnap ((jsIndex f.history f.historyIndex).getD {}) u) ∧
    (recordEdit f u).historyIndex = ((recordEdit f u).history.length : Int) - 1 ∧
    (recordEdit f u).meta = applyUpdate f.meta u := by
  obtain ⟨hb, hiff⟩ := hinv
  have hge : 0 ≤ f.historyIndex + 1 := by
    by_cases hnil : f.history = []
    · have := hiff.mpr hnil; omega
    · have := (hb hnil).1; omega
  have hlenb : (f.historyIndex + 1).toNat ≤ f.history.length := by
    by_cases hnil : f.history = []
    · have h1 := hiff.mpr hnil
      have h2 : f.history.length = 0 := by rw [hnil]; rfl
      omega
    · have := (hb hnil).2; omega
  have hslice : sliceTo f.history (f.historyIndex + 1)
      = f.history.take (f.historyIndex + 1).toNat := by
    unfold sliceTo
    rw [if_neg (by omega)]
  have htlen : (f.history.take (f.historyIndex + 1).toNat).length
      = (f.historyIndex + 1).toNat := by
    rw [List.length_take]
    omega
  refine ⟨?_, ?_, ?_, recordEdit_historyIndex f u, rfl⟩
  · rw [recordEdit_history, hslice, List.length_append, htlen]
    rfl
  · intro j hj
    have hjlt : j < (f.historyIndex + 1).toNat := by omega
    rw [recordEdit_history, hslice,
      List.getElem?_append_left (by rw [htlen]; exact hjlt),
      List.getElem?_take_of_lt hjlt]
  · rw [recordEdit_history]
    exact List.getLast?_concat _

/-- Witness for C2 at a concrete item with one snapshot. -/
theorem recordEdit_spec_witness :
    (recordEdit
      { id := "b", fileName := "b.jpg", state := ProcessingState.success,
        meta := { editedTitle := "t" },
        history := [snapOfLive { editedTitle := "t" }], historyIndex := 0 }
      { editedDescription := some "d" }).history.length = 2 := by
  have h := recordEdit_spec
    { id := "b", fileName := "b.jpg", state := ProcessingState.success,
      meta := { editedTitle := "t" },
      history := [snapOfLive { editedTitle := "t" }], historyIndex := 0 }
    { editedDescription := some "d" } (by decide)
  simpa using h.1

-- Claim C3 ------------------------------------------------------------------

/-- A concrete item whose cursor is not at the last history index (redo is
enabled) but whose cursor is 0, so undo is a no-op and redo then moves the
cursor forward. -/
def exC3 : ImageFile :=
  { id := "c3", fileName := "c3.jpg", state := ProcessingState.success,
    meta := { editedTitle := "a" },
    history := [snapOfLive { editedTitle := "a" }, snapOfLive { editedTitle := "b" }],
    historyIndex := 0 }

/-- C3 counterexample: the claim quantifies over items whose cursor is not
at the last history index; at cursor 0 with two snapshots undo is a no-op
and redo advances the cursor, so undo then redo does not restore the
cursor or the live fields that held before. -/
theorem undo_redo_claim_counterexample :
    exC3.historyIndex < (exC3.history.length : Int) - 1 ∧
    (handleRedo (handleUndo exC3)).historyIndex ≠ exC3.historyIndex ∧
    (handleRedo (handleUndo exC3)).meta ≠ exC3.meta := by decide

/-- C3 (amended): when undo is enabled (cursor positive) on an item
satisfying the history invariant whose live state agrees with the snapshot
at the cursor and whose previous snapshot presents no field absent from
the cursor snapshot (both maintained by the tracker operations), undo then
redo restores exactly the live fields, the cursor and the history; and
undo is a no-op whenever the cursor is at most 0. -/
theorem undo_redo_roundtrip (f : ImageFile) (hinv : histInv f) (hpos : 0 < f.historyIndex)
    (hcons : applyUpdate f.meta ((jsIndex f.history f.historyIndex).getD {}) = f.meta)
    (hle : presentLE ((jsIndex f.history (f.historyIndex - 1)).getD {})
      ((jsIndex f.history f.historyIndex).getD {})) :
    (handleRedo (handleUndo f)).meta = f.meta ∧
    (handleRedo (handleUndo f)).historyIndex = f.historyIndex ∧
    (handleRedo (handleUndo f)).history = f.history ∧
    (∀ g : ImageFile, g.historyIndex ≤ 0 → handleUndo g = g) := by
  obtain ⟨hb, hiff⟩ := hinv
  have hne : f.history ≠ [] := by
    intro hnil
    have := hiff.mpr hnil
    omega
  obtain ⟨h0, hltlen⟩ := hb hne
  have hu := handleUndo_eq_pos f hpos
  have hgidx : (handleUndo f).historyIndex = f.historyIndex - 1 := by rw [hu]
  have hghist : (handleUndo f).history = f.history := by rw [hu]
  have hgmeta : (handleUndo f).meta
      = applyUpdate f.meta ((jsIndex f.history (f.historyIndex - 1)).getD {}) := by rw [hu]
  have hcond : (handleUndo f).historyIndex < ((handleUndo f).history.length : Int) - 1 := by
    rw [hgidx, hghist]
    omega
  have hr := handleRedo_eq_lt (handleUndo f) hcond
  have hrm : (handleRedo (handleUndo f)).meta
      = applyUpdate (handleUndo f).meta
          ((jsIndex (handleUndo f).history ((handleUndo f).historyIndex + 1)).getD {}) := by
    rw [hr]
  have hri : (handleRedo (handleUndo f)).historyIndex = (handleUndo f).historyIndex + 1 := by
    rw [hr]
  have hrh : (handleRedo (handleUndo f)).history = (handleUndo f).history := by rw [hr]
  have hstep : f.historyIndex - 1 + 1 = f.historyIndex := by omega
  refine ⟨?_, ?_, ?_, ?_⟩
  · rw [hrm, hgmeta, hghist, hgidx, hstep]
    exact applyUpdate_roundtrip f.meta _ _ hle hcons
  · rw [hri, hgidx]
    omega
  · rw [hrh, hghist]
  · intro g hg
    unfold handleUndo
    rw [if_neg (by omega)]

/-- A concrete item with its cursor at the last of two snapshots and a
live state matching the cursor snapshot. -/
def exC3w : ImageFile :=
  { id := "c3w", fileName := "c3w.jpg", state := ProcessingState.success,
    meta := { editedTitle := "b" },
    history := [snapOfLive { editedTitle := "a" }, snapOfLive { editedTitle := "b" }],
    historyIndex := 1 }

/-- Witness for the amended C3 at a concrete two-snapshot item. -/
theorem undo_redo_roundtrip_witness :
    (handleRedo (handleUndo exC3w)).meta = exC3w.meta ∧
    (handleRedo (handleUndo exC3w)).historyIndex = exC3w.historyIndex := by
  have h := undo_redo_roundtrip exC3w (by decide) (by decide) (by decide) (by decide)
  exact ⟨h.1, h.2.1⟩

-- Claim C4 ------------------------------------------------------------------

/-- A concrete item whose description already starts with the editorial
prefix computed from its own city field while the editorial flag is off. -/
def exC4 : ImageFile :=
  { id := "c4", fileName := "c4.jpg", state := ProcessingState.success,
    meta := { editedDescription := "PARIS: hello", editedEditorialCity := "Paris" } }

/-- A concrete item with empty editorial fields, so the computed prefix is
empty and toggling leaves the description alone. -/
def exC4b : ImageFile :=
  { id := "c4b", fileName := "c4b.jpg", state := ProcessingState.success,
    meta := { editedDescription := "hello world" } }

/-- C4 counterexample: on an item whose description already starts with
the computed prefix, toggling editorial on (which never touches the
description) and then off strips that prefix, so the description is not
returned to its pre-toggle value byte-for-byte. -/
theorem toggle_editorial_counterexample :
    (handleToggleEditorial (handleToggleEditorial exC4 true) false).meta.editedDescription
      ≠ exC4.meta.editedDescription := by decide

/-- C4 (amended): toggling editorial on leaves the description unchanged;
toggling back off, with no intervening change, strips the computed
editorial prefix exactly when that prefix is non-empty and the description
starts with it (exact string-prefix match, the stripped remainder being
trimmed), and otherwise leaves the description untouched - so the
on-then-off round trip is byte-for-byte exactly when the pre-toggle
description does not start with a non-empty computed prefix. -/
theorem toggle_editorial_strip (f : ImageFile) :
    (handleToggleEditorial f true).meta.editedDescription = f.meta.editedDescription ∧
    ((createEditorialPrefix f.meta.editedEditorialCity f.meta.editedEditorialRegion
          f.meta.editedEditorialDate ≠ ""
        ∧ jsStartsWith f.meta.editedDescription
            (createEditorialPrefix f.meta.editedEditorialCity f.meta.editedEditorialRegion
              f.meta.editedEditorialDate)) →
      (handleToggleEditorial (handleToggleEditorial f true) false).meta.editedDescription
        = jsTrim (jsDrop f.meta.editedDescription
            (jsLength (createEditorialPrefix f.meta.editedEditorialCity
              f.meta.editedEditorialRegion f.meta.editedEditorialDate)))) ∧
    (¬ (createEditorialPrefix f.meta.editedEditorialCity f.meta.editedEditorialRegion
          f.meta.editedEditorialDate ≠ ""
        ∧ jsStartsWith f.meta.editedDescription
            (createEditorialPrefix f.meta.editedEditorialCity f.meta.editedEditorialRegion
              f.meta.editedEditorialDate)) →
      (handleToggleEditorial (handleToggleEditorial f true) false).meta.editedDescription
        = f.meta.editedDescription) := by
  have hval : (handleToggleEditorial (handleToggleEditorial f true) false).meta.editedDescription
      = if createEditorialPrefix f.meta.editedEditorialCity f.meta.editedEditorialRegion
            f.meta.editedEditorialDate ≠ ""
          ∧ jsStartsWith f.meta.editedDescription
              (createEditorialPrefix f.meta.editedEditorialCity f.meta.editedEditorialRegion
                f.meta.editedEditorialDate) then
          jsTrim (jsDrop f.meta.editedDescription
            (jsLength (createEditorialPrefix f.meta.editedEditorialCity
              f.meta.editedEditorialRegion f.meta.editedEditorialDate)))
        else f.meta.editedDescription := rfl
  refine ⟨rfl, ?_, ?_⟩
  · intro h
    rw [hval, if_pos h]
  · intro h
    rw [hval, if_neg h]

/-- Witness for the amended C4: the strip case and the untouched case at
concrete items. -/
theorem toggle_editorial_strip_witness :
    (handleToggleEditorial (handleToggleEditorial exC4 true) false).meta.editedDescription
      = "hello" ∧
    (handleToggleEditorial (handleToggleEditorial exC4b true) false).meta.editedDescription
      = exC4b.meta.editedDescription := by
  constructor
  · have h := (toggle_editorial_strip exC4).2.1 (by decide)
    rw [h]
    decide
  · exact (toggle_editorial_strip exC4b).2.2 (by decide)

-- Batch loop lemmas ---------------------------------------------------------

theorem runBatchAux_nil (gen : String → Except String StockMetadata) (ab : Nat → Bool)
    (k : Nat) (acc : BatchAcc) : runBatchAux gen ab k [] acc = acc := rfl

theorem runBatchAux_cons (gen : String → Except String StockMetadata) (ab : Nat → Bool)
    (k : Nat) (x : ImageFile) (rest : List ImageFile) (acc : BatchAcc) :
    runBatchAux gen ab k (x :: rest) acc =
      if ab k then acc else runBatchAux gen ab (k + 1) rest (batchStep gen x acc) := rfl

theorem runBatchAux_noAbort_cons (gen : String → Except String StockMetadata)
    (k : Nat) (x : ImageFile) (rest : List ImageFile) (acc : BatchAcc) :
    runBatchAux gen noAbort k (x :: rest) acc
      = runBatchAux gen noAbort (k + 1) rest (batchStep gen x acc) := rfl

theorem runBatchAux_noAbort_k (gen : String → Except String StockMetadata)
    (files : List ImageFile) :
    ∀ (k k' : Nat) (acc : BatchAcc),
      runBatchAux gen noAbort k files acc = runBatchAux gen noAbort k' files acc := by
  induction files with
  | nil => intros; rfl
  | cons x rest ih =>
      intro k k' acc
      rw [runBatchAux_noAbort_cons, runBatchAux_noAbort_cons]
      exact ih _ _ _

theorem runBatchAux_noAbort_append (gen : String → Except String StockMetadata)
    (xs ys : List ImageFile) :
    ∀ acc : BatchAcc, runBatchAux gen noAbort 0 (xs ++ ys) acc
      = runBatchAux gen noAbort 0 ys (runBatchAux gen noAbort 0 xs acc) := by
  induction xs with
  | nil => intro acc; rfl
  | cons x rest ih =>
      intro acc
      rw [List.cons_append, runBatchAux_noAbort_cons, runBatchAux_noAbort_cons,
        runBatchAux_noAbort_k gen (rest ++ ys) 1 0, runBatchAux_noAbort_k gen rest 1 0]
      exact ih _

theorem insertSet_mem (s : List String) (x y : String) (h : y ∈ s) : y ∈ insertSet s x := by
  unfold insertSet
  split
  · exact h
  · exact List.mem_append_left _ h

theorem insertSet_self (s : List String) (x : String) : x ∈ insertSet s x := by
  unfold insertSet
  split
  · assumption
  · exact List.mem_append_right _ (by simp)

theorem foldl_insertSet_mem (g : String → String) (l : List String) :
    ∀ (s : List String) (y : String), y ∈ s →
      y ∈ l.foldl (fun s k => insertSet s (g k)) s := by
  induction l with
  | nil => intro s y h; exact h
  | cons a rest ih => intro s y h; exact ih _ _ (insertSet_mem _ _ _ h)

theorem foldl_insertSet_elem (g : String → String) (l : List String) :
    ∀ (s : List String) (k : String), k ∈ l →
      g k ∈ l.foldl (fun s k => insertSet s (g k)) s := by
  induction l with
  | nil => intro s k h; exact absurd h (List.not_mem_nil k)
  | cons a rest ih =>
      intro s k h
      rcases List.mem_cons.mp h with rfl | hmem
      · exact foldl_insertSet_mem g rest _ _ (insertSet_self _ _)
      · exact ih _ _ hmem

theorem batchStep_titles_mem (gen : String → Except String StockMetadata) (img : ImageFile)
    (acc : BatchAcc) (t : String) (h : t ∈ acc.titles) : t ∈ (batchStep gen img acc).titles := by
  unfold batchStep
  split
  · exact h
  split
  · exact h
  split
  · simp only []
    split
    · exact List.mem_append_left _ h
    · exact h
  · exact h

theorem batchStep_keywords_mem (gen : String → Except String StockMetadata) (img : ImageFile)
    (acc : BatchAcc) (t : String) (h : t ∈ acc.keywords) :
    t ∈ (batchStep gen img acc).keywords := by
  unfold batchStep
  split
  · exact h
  split
  · exact h
  split
  · exact foldl_insertSet_mem jsLower _ _ _ h
  · exact h

theorem batchStep_calls_mem (gen : String → Except String StockMetadata) (img : ImageFile)
    (acc : BatchAcc) (c : BatchCall) (h : c ∈ acc.calls) : c ∈ (batchStep gen img acc).calls := by
  unfold batchStep
  split
  · exact h
  split
  · exact h
  split
  · exact List.mem_append_left _ h
  · exact List.mem_append_left _ h

theorem runBatchAux_titles_mem (gen : String → Except String StockMetadata)
    (files : List ImageFile) :
    ∀ (k : Nat) (acc : BatchAcc) (t : String), t ∈ acc.titles →
      t ∈ (runBatchAux gen noAbort k files acc).titles := by
  induction files with
  | nil => intro k acc t h; exact h
  | cons x rest ih =>
      intro k acc t h
      rw [runBatchAux_noAbort_cons]
      exact ih _ _ _ (batchStep_titles_mem gen x acc t h)

theorem runBatchAux_keywords_mem (gen : String → Except String StockMetadata)
    (files : List ImageFile) :
    ∀ (k : Nat) (acc : BatchAcc) (t : String), t ∈ acc.keywords →
      t ∈ (runBatchAux gen noAbort k files acc).keywords := by
  induction files with
  | nil => intro k acc t h; exact h
  | cons x rest ih =>
      intro k acc t h
      rw [runBatchAux_noAbort_cons]
      exact ih _ _ _ (batchStep_keywords_mem gen x acc t h)

theorem runBatchAux_calls_mem (gen : String → Except String StockMetadata)
    (files : List ImageFile) :
    ∀ (k : Nat) (acc : BatchAcc) (c : BatchCall), c ∈ acc.calls →
      c ∈ (runBatchAux gen noAbort k files acc).calls := by
  induction files with
  | nil => intro k acc c h; exact h
  | cons x rest ih =>
      intro k acc c h
      rw [runBatchAux_noAbort_cons]
      exact ih _ _ _ (batchStep_calls_mem gen x acc c h)

theorem batchStep_emits_call (gen : String → Except String StockMetadata) (img : ImageFile)
    (acc : BatchAcc) (h1 : img.state ≠ ProcessingState.success) (h2 : img.isRestored = false) :
    (⟨img.id, acc.titles, acc.keywords⟩ : BatchCall) ∈ (batchStep gen img acc).calls := by
  unfold batchStep
  rw [if_neg h1, if_neg (by simp [h2])]
  split
  · exact List.mem_append_right _ (by simp)
  · exact List.mem_append_right _ (by simp)

theorem runBatchAux_call_exists (gen : String → Except String StockMetadata)
    (files : List ImageFile) :
    ∀ (k : Nat) (acc : BatchAcc) (img : ImageFile), img ∈ files →
      img.state ≠ ProcessingState.success → img.isRestored = false →
      ∃ c ∈ (runBatchAux gen noAbort k files acc).calls, c.id = img.id := by
  induction files with
  | nil => intro k acc img h; exact absurd h (List.not_mem_nil img)
  | cons x rest ih =>
      intro k acc img hmem h1 h2
      rw [runBatchAux_noAbort_cons]
      rcases List.mem_cons.mp hmem with rfl | hmem'
      · exact ⟨⟨img.id, acc.titles, acc.keywords⟩,
          runBatchAux_calls_mem gen rest _ _ _ (batchStep_emits_call gen img acc h1 h2), rfl⟩
      · exact ih _ _ img hmem' h1 h2

theorem runBatchAux_success_context (gen : String → Except String StockMetadata)
    (xs : List ImageFile) (i : ImageFile) (md : StockMetadata)
    (hi1 : i.state ≠ ProcessingState.success) (hi2 : i.isRestored = false)
    (hgen : gen i.id = Except.ok md) :
    ∀ (k : Nat) (acc : BatchAcc), i ∈ xs →
      (md.title ≠ "" → md.title ∈ (runBatchAux gen noAbort k xs acc).titles) ∧
      (∀ kw ∈ md.keywords, jsLower kw ∈ (runBatchAux gen noAbort k xs acc).keywords) := by
  induction xs with
  | nil => intro k acc h; exact absurd h (List.not_mem_nil i)
  | cons x rest ih =>
      intro k acc hmem
      rw [runBatchAux_noAbort_cons]
      rcases List.mem_cons.mp hmem with rfl | hmem'
      · have hstep : (md.title ≠ "" → md.title ∈ (batchStep gen i acc).titles) ∧
            (∀ kw ∈ md.keywords, jsLower kw ∈ (batchStep gen i acc).keywords) := by
          unfold batchStep
          rw [if_neg hi1, if_neg (by simp [hi2]), hgen]
          constructor
          · intro ht
            simp only []
            rw [if_pos ht]
            exact List.mem_append_right _ (by simp)
          · intro kw hkw
            exact foldl_insertSet_elem jsLower _ _ _ hkw
        exact ⟨fun ht => runBatchAux_titles_mem gen rest _ _ _ (hstep.1 ht),
          fun kw hkw => runBatchAux_keywords_mem gen rest _ _ _ (hstep.2 kw hkw)⟩
      · exact ih _ _ hmem'

theorem find?_id_cons_ne (x : String) (b : ImageFile) (l : List ImageFile) (hb : ¬ b.id = x) :
    List.find? (fun f => decide (f.id = x)) (b :: l)
      = List.find? (fun f => decide (f.id = x)) l :=
  List.find?_cons_of_neg _ (by simp [hb])

theorem find?_id_cons_eq (x : String) (b : ImageFile) (l : List ImageFile) (hb : b.id = x) :
    List.find? (fun f => decide (f.id = x)) (b :: l) = some b :=
  List.find?_cons_of_pos _ (by simp [hb])

theorem find?_map_update_ne (l : List ImageFile) (upd : ImageFile → ImageFile) (tid x : String)
    (hid : ∀ f, (upd f).id = f.id) (hx : x ≠ tid) :
    ((l.map fun f => if f.id = tid then upd f else f).find? fun f => decide (f.id = x))
      = l.find? fun f => decide (f.id = x) := by
  induction l with
  | nil => rfl
  | cons a rest ih =>
      rw [List.map_cons]
      by_cases ha : a.id = tid
      · rw [if_pos ha,
          find?_id_cons_ne x (upd a) _ (by rw [hid a, ha]; exact fun h => hx h.symm),
          find?_id_cons_ne x a _ (by rw [ha]; exact fun h => hx h.symm)]
        exact ih
      · rw [if_neg ha]
        by_cases hpa : a.id = x
        · rw [find?_id_cons_eq x a _ hpa, find?_id_cons_eq x a _ hpa]
        · rw [find?_id_cons_ne x a _ hpa, find?_id_cons_ne x a _ hpa]
          exact ih

theorem find?_map_update_eq (l : List ImageFile) (upd : ImageFile → ImageFile) (tid : String)
    (hid : ∀ f, (upd f).id = f.id) :
    ((l.map fun f => if f.id = tid then upd f else f).find? fun f => decide (f.id = tid))
      = (l.find? fun f => decide (f.id = tid)).map upd := by
  induction l with
  | nil => rfl
  | cons a rest ih =>
      rw [List.map_cons]
      by_cases ha : a.id = tid
      · rw [if_pos ha, find?_id_cons_eq tid (upd a) _ (by rw [hid a]; exact ha),
          find?_id_cons_eq tid a _ ha]
        rfl
      · rw [if_neg ha, find?_id_cons_ne tid a _ ha, find?_id_cons_ne tid a _ ha]
        exact ih

theorem batchStep_registry_other (gen : String → Except String StockMetadata) (img : ImageFile)
    (acc : BatchAcc) (x : String) (hx : x ≠ img.id) :
    ((batchStep gen img acc).registry.find? fun f => decide (f.id = x))
      = acc.registry.find? fun f => decide (f.id = x) := by
  unfold batchStep
  split
  · rfl
  split
  · rfl
  split
  · rename_i md heq
    simp only []
    rw [find?_map_update_ne _ (fun f => applySuccess f md) img.id x (fun f => rfl) hx,
      find?_map_update_ne _ setProcessing img.id x (fun f => rfl) hx]
  · rename_i e heq
    simp only []
    rw [find?_map_update_ne _ (setError (getFriendlyErrorMessage e)) img.id x (fun f => rfl) hx,
      find?_map_update_ne _ setProcessing img.id x (fun f => rfl) hx]

theorem batchStep_calls_sub (gen : String → Except String StockMetadata) (img : ImageFile)
    (acc : BatchAcc) :
    ∀ call ∈ (batchStep gen img acc).calls, call ∈ acc.calls ∨ call.id = img.id := by
  unfold batchStep
  split
  · intro c hc; exact Or.inl hc
  split
  · intro c hc; exact Or.inl hc
  split
  · intro c hc
    rcases List.mem_append.mp hc with h | h
    · exact Or.inl h
    · have := List.mem_singleton.mp h
      subst this
      exact Or.inr rfl
  · intro c hc
    rcases List.mem_append.mp hc with h | h
    · exact Or.inl h
    · have := List.mem_singleton.mp h
      subst this
      exact Or.inr rfl

theorem runBatchAux_untouched (gen : String → Except String StockMetadata)
    (files : List ImageFile) :
    ∀ (k : Nat) (acc : BatchAcc) (x : String), x ∉ files.map ImageFile.id →
      ((runBatchAux gen noAbort k files acc).registry.find? fun f => decide (f.id = x))
          = (acc.registry.find? fun f => decide (f.id = x)) ∧
      ∀ call ∈ (runBatchAux gen noAbort k files acc).calls, call ∈ acc.calls ∨ call.id ≠ x := by
  induction files with
  | nil => intro k acc x _; exact ⟨rfl, fun c hc => Or.inl hc⟩
  | cons img rest ih =>
      intro k acc x hx
      rw [List.map_cons, List.mem_cons] at hx
      push_neg at hx
      obtain ⟨hx1, hx2⟩ := hx
      rw [runBatchAux_noAbort_cons]
      obtain ⟨ihf, ihc⟩ := ih (k + 1) (batchStep gen img acc) x hx2
      refine ⟨?_, ?_⟩
      · rw [ihf, batchStep_registry_other gen img acc x hx1]
      · intro c hc
        rcases ihc c hc with h | h
        · rcases batchStep_calls_sub gen img acc c h with h' | h'
          · exact Or.inl h'
          · refine Or.inr ?_
            rw [h']
            exact hx1.symm
        · exact Or.inr h

theorem runBatchAux_abortFrom (gen : String → Except String StockMetadata) (n : Nat)
    (files : List ImageFile) :
    ∀ (k : Nat) (acc : BatchAcc),
      runBatchAux gen (abortFrom n) k files acc
        = runBatchAux gen noAbort k (files.take (n - k)) acc := by
  induction files with
  | nil => intro k acc; rw [List.take_nil]; rfl
  | cons x rest ih =>
      intro k acc
      by_cases hk : n ≤ k
      · rw [runBatchAux_cons, if_pos (by simp [abortFrom, hk]),
          Nat.sub_eq_zero_of_le hk, List.take_zero, runBatchAux_nil]
      · have h1 : n - k = (n - (k + 1)) + 1 := by omega
        rw [runBatchAux_cons, if_neg (by simp [abortFrom]; omega), h1,
          List.take_succ_cons, runBatchAux_noAbort_cons]
        exact ih (k + 1) _

theorem processImages_abortFrom (gen : String → Except String StockMetadata) (n : Nat)
    (registry files : List ImageFile) :
    processImages gen (abortFrom n) registry files
      = processImages gen noAbort registry (files.take n) := by
  unfold processImages
  have h := runBatchAux_abortFrom gen n files 0
    ⟨registry, (initContext registry).1, (initContext registry).2, []⟩
  rw [Nat.sub_zero] at h
  exact h

-- Claim C5 ------------------------------------------------------------------

/-- C5: during sequential batch processing, after each successful
generation the returned title is appended to the rolling titles list and
each returned keyword is added lower-cased to the rolling keyword set, so
the collaborator call made for any later queued eligible item carries a
context containing the title and the lower-cased keywords of every earlier
eligible item whose generation succeeded (titles are kept in a list, so a
duplicated title is still appended). -/
theorem batch_context_accumulates (gen : String → Except String StockMetadata)
    (registry xs ys : List ImageFile) (c i : ImageFile) (md : StockMetadata)
    (hc1 : c.state ≠ ProcessingState.success) (hc2 : c.isRestored = false)
    (hi : i ∈ xs) (hi1 : i.state ≠ ProcessingState.success) (hi2 : i.isRestored = false)
    (hgen : gen i.id = Except.ok md) (ht : md.title ≠ "") :
    (∃ call ∈ (processImages gen noAbort registry (xs ++ c :: ys)).calls,
      call.id = c.id ∧ md.title ∈ call.previousTitles ∧
      ∀ kw ∈ md.keywords, jsLower kw ∈ call.previousKeywords) ∧
    (∀ (acc : BatchAcc) (img' : ImageFile) (md' : StockMetadata),
      img'.state ≠ ProcessingState.success → img'.isRestored = false →
      gen img'.id = Except.ok md' → md'.title ≠ "" →
      (batchStep gen img' acc).titles = acc.titles ++ [md'.title]) := by
  constructor
  · unfold processImages
    rw [runBatchAux_noAbort_append, runBatchAux_noAbort_cons, runBatchAux_noAbort_k gen ys 1 0]
    obtain ⟨hTitle, hKw⟩ := runBatchAux_success_context gen xs i md hi1 hi2 hgen 0
      ⟨registry, (initContext registry).1, (initContext registry).2, []⟩ hi
    exact ⟨⟨c.id, _, _⟩,
      runBatchAux_calls_mem gen ys _ _ _ (batchStep_emits_call gen c _ hc1 hc2),
      rfl, hTitle ht, hKw⟩
  · intro acc img' md' h1 h2 hg ht'
    unfold batchStep
    rw [if_neg h1, if_neg (by simp [h2]), hg]
    simp only []
    rw [if_pos ht']

/-- Collaborator oracle for the concrete batch examples: the item with id
bad fails with a quota error, every other item succeeds with exMd. -/
def exMd : StockMetadata := { title := "T", description := "D", keywords := ["K1", "K2"] }

def exGen : String → Except String StockMetadata := fun id =>
  if id = "bad" then Except.error "QUOTA_EXCEEDED" else Except.ok exMd

def exA : ImageFile := { id := "a", fileName := "a.jpg", state := ProcessingState.idle }

def exB : ImageFile := { id := "b", fileName := "b.jpg", state := ProcessingState.idle }

def exBad : ImageFile := { id := "bad", fileName := "bad.jpg", state := ProcessingState.idle }

/-- Witness for C5: in the batch with items a then b, the call for b
carries the title and lower-cased keywords generated for a. -/
theorem batch_context_accumulates_witness :
    (∃ call ∈ (processImages exGen noAbort [] ([exA] ++ exB :: [])).calls,
      call.id = exB.id ∧ exMd.title ∈ call.previousTitles ∧
      ∀ kw ∈ exMd.keywords, jsLower kw ∈ call.previousKeywords) ∧
    (batchStep exGen exB ⟨[], ["T"], [], []⟩).titles = ["T", "T"] := by
  have h := batch_context_accumulates exGen [] [exA] [] exB exA exMd (by decide) (by decide)
    (by decide) (by decide) (by decide) rfl (by decide)
  refine ⟨h.1, ?_⟩
  rw [h.2 ⟨[], ["T"], [], []⟩ exB exMd (by decide) (by decide) rfl (by decide)]
  rfl

-- Claim C6 ------------------------------------------------------------------

/-- C6: when the cancellation flag is set after n items have been handled
and before item n + 1 starts, every queued item past that point whose id
was not among the first n processed keeps exactly its pre-batch registry
record (so it is never marked processing or success) and no collaborator
call is made for it. -/
theorem batch_cancellation (gen : String → Except String StockMetadata)
    (registry files : List ImageFile) (n : Nat) (x : String)
    (hlater : x ∈ (files.drop n).map ImageFile.id)
    (hnot : x ∉ (files.take n).map ImageFile.id) :
    ((processImages gen (abortFrom n) registry files).registry.find?
        fun f => decide (f.id = x))
      = registry.find? (fun f => decide (f.id = x)) ∧
    ∀ call ∈ (processImages gen (abortFrom n) registry files).calls, call.id ≠ x := by
  rw [processImages_abortFrom]
  unfold processImages
  obtain ⟨hf, hc⟩ := runBatchAux_untouched gen (files.take n) 0
    ⟨registry, (initContext registry).1, (initContext registry).2, []⟩ x hnot
  refine ⟨hf, fun call hcall => ?_⟩
  rcases hc call hcall with h | h
  · exact absurd h (List.not_mem_nil call)
  · exact h

/-- Witness for C6: cancelling after the first of two queued items leaves
the second item untouched and never calls the collaborator for it. -/
theorem batch_cancellation_witness :
    ((processImages exGen (abortFrom 1) [exA, exB] [exA, exB]).registry.find?
        fun f => decide (f.id = "b"))
      = [exA, exB].find? (fun f => decide (f.id = "b")) ∧
    ∀ call ∈ (processImages exGen (abortFrom 1) [exA, exB] [exA, exB]).calls,
      call.id ≠ "b" :=
  batch_cancellation exGen [exA, exB] [exA, exB] 1 "b" (by decide) (by decide)

-- Claim C7 ------------------------------------------------------------------

theorem batchStep_error_find (gen : String → Except String StockMetadata) (img : ImageFile)
    (acc : BatchAcc) (e : String) (f0 : ImageFile)
    (h1 : img.state ≠ ProcessingState.success) (h2 : img.isRestored = false)
    (hgen : gen img.id = Except.error e)
    (hf : (acc.registry.find? fun f => decide (f.id = img.id)) = some f0) :
    ((batchStep gen img acc).registry.find? fun f => decide (f.id = img.id))
      = some { f0 with
          state := ProcessingState.error
          error := some (getFriendlyErrorMessage e) } := by
  unfold batchStep
  rw [if_neg h1, if_neg (by simp [h2]), hgen]
  simp only []
  rw [find?_map_update_eq _ (setError (getFriendlyErrorMessage e)) img.id (fun f => rfl),
    find?_map_update_eq _ setProcessing img.id (fun f => rfl), hf]
  rfl

/-- C7: a generation failure for one queued item marks exactly that item
as error carrying the user-facing message, and the batch is not aborted:
a collaborator call is still made for every eligible queued item,
including all items after the failing one. -/
theorem batch_failure_isolation (gen : String → Except String StockMetadata)
    (registry xs ys : List ImageFile) (bad f0 : ImageFile) (e : String)
    (hb1 : bad.state ≠ ProcessingState.success) (hb2 : bad.isRestored = false)
    (hgen : gen bad.id = Except.error e)
    (hreg : registry.find? (fun f => decide (f.id = bad.id)) = some f0)
    (hxs : bad.id ∉ xs.map ImageFile.id) (hys : bad.id ∉ ys.map ImageFile.id) :
    ((processImages gen noAbort registry (xs ++ bad :: ys)).registry.find?
        fun f => decide (f.id = bad.id))
      = some { f0 with
          state := ProcessingState.error
          error := some (getFriendlyErrorMessage e) } ∧
    ∀ img ∈ xs ++ bad :: ys, img.state ≠ ProcessingState.success → img.isRestored = false →
      ∃ call ∈ (processImages gen noAbort registry (xs ++ bad :: ys)).calls,
        call.id = img.id := by
  constructor
  · unfold processImages
    rw [runBatchAux_noAbort_append, runBatchAux_noAbort_cons, runBatchAux_noAbort_k gen ys 1 0]
    have hAfind := (runBatchAux_untouched gen xs 0
      ⟨registry, (initContext registry).1, (initContext registry).2, []⟩ bad.id hxs).1
    rw [hreg] at hAfind
    have hstep := batchStep_error_find gen bad _ e f0 hb1 hb2 hgen hAfind
    exact ((runBatchAux_untouched gen ys 0 _ bad.id hys).1).trans hstep
  · intro img hmem h1 h2
    unfold processImages
    exact runBatchAux_call_exists gen (xs ++ bad :: ys) 0 _ img hmem h1 h2

/-- Witness for C7: with a failing first item and a healthy second item,
the first is marked error with the quota message and both items still get
collaborator calls. -/
theorem batch_failure_isolation_witness :
    ((processImages exGen noAbort [exBad, exB] ([] ++ exBad :: [exB])).registry.find?
        fun f => decide (f.id = exBad.id))
      = some { exBad with
          state := ProcessingState.error
          error := some (getFriendlyErrorMessage "QUOTA_EXCEEDED") } ∧
    ∀ img ∈ [] ++ exBad :: [exB], img.state ≠ ProcessingState.success →
      img.isRestored = false →
      ∃ call ∈ (processImages exGen noAbort [exBad, exB] ([] ++ exBad :: [exB])).calls,
        call.id = img.id :=
  batch_failure_isolation exGen [exBad, exB] [] [exB] exBad exBad "QUOTA_EXCEEDED"
    (by decide) (by decide) rfl rfl (by decide) (by decide)

-- Claim C8 ------------------------------------------------------------------

/-- C8: session import fails with an explicit error (committing no items)
when the manifest document is absent or its root is not an array;
otherwise it returns one reconstructed item per manifest entry, each
carrying the stand-in dummy file content and the restored flag, with the
generated placeholder preview exactly for entries whose thumbnail payload
is missing from the archive and the data-URL thumbnail for entries that
have one. -/
theorem importSession_spec (z : SessionZip) :
    (z.sessionJson = none →
      importSessionFromZip z
        = Except.error "Invalid session file: session.json not found inside archive.") ∧
    (z.sessionJson = some SessionDoc.nonArray →
      importSessionFromZip z
        = Except.error "Invalid session metadata: root must be an array.") ∧
    (∀ entries, z.sessionJson = some (SessionDoc.arr entries) →
      ∃ items, importSessionFromZip z = Except.ok items ∧
        items.length = entries.length ∧
        (∀ it ∈ items, it.isRestored = true ∧ it.fileContent = "(restored-content)") ∧
        (∀ (j : Nat) (entry : ManifestEntry), entries[j]? = some entry →
          ∃ it, items[j]? = some it ∧ it.id = entry.id ∧
            (lookupThumb z entry.id = none →
              it.previewUrl = Preview.placeholderSvg ∧ it.thumbnailData = "") ∧
            (∀ d, lookupThumb z entry.id = some d →
              it.previewUrl = Preview.fromBlob d ∧
              it.thumbnailData = "data:image/jpeg;base64," ++ d))) := by
  refine ⟨?_, ?_, ?_⟩
  · intro h
    unfold importSessionFromZip
    rw [h]
  · intro h
    unfold importSessionFromZip
    rw [h]
  · intro entries h
    refine ⟨entries.map (restoreEntry z), by unfold importSessionFromZip; rw [h], by simp,
      ?_, ?_⟩
    · intro it hit
      rw [List.mem_map] at hit
      obtain ⟨en, _, rfl⟩ := hit
      cases hth : lookupThumb z en.id with
      | none => simp [restoreEntry, hth]
      | some d => simp [restoreEntry, hth]
    · intro j entry hj
      refine ⟨restoreEntry z entry, ?_, ?_, ?_, ?_⟩
      · rw [List.getElem?_map, hj]
        rfl
      · cases hth : lookupThumb z entry.id with
        | none => simp only [restoreEntry, hth]
        | some d => simp only [restoreEntry, hth]
      · intro hn
        simp [restoreEntry, hn]
      · intro d hd
        simp [restoreEntry, hd]

/-- A three-entry manifest where the second entry has no thumbnail payload
in the archive. -/
def exEntries : List ManifestEntry :=
  [⟨"i1", "a.jpg", "image/jpeg"⟩, ⟨"i2", "b.jpg", "image/jpeg"⟩, ⟨"i3", "c.jpg", "image/jpeg"⟩]

def exZipNoManifest : SessionZip := { sessionJson := none, thumbs := [("i1", "AAA")] }

def exZipBad : SessionZip := { sessionJson := some SessionDoc.nonArray, thumbs := [] }

def exZip3 : SessionZip :=
  { sessionJson := some (SessionDoc.arr exEntries), thumbs := [("i1", "AAA"), ("i3", "CCC")] }

/-- Witness for C8: both failure modes at concrete archives, and a
three-item import where item 2 lacks a thumbnail. -/
theorem importSession_spec_witness :
    importSessionFromZip exZipNoManifest
      = Except.error "Invalid session file: session.json not found inside archive." ∧
    importSessionFromZip exZipBad
      = Except.error "Invalid session metadata: root must be an array." ∧
    ∃ items, importSessionFromZip exZip3 = Except.ok items ∧ items.length = 3 := by
  refine ⟨(importSession_spec exZipNoManifest).1 rfl, (importSession_spec exZipBad).2.1 rfl, ?_⟩
  obtain ⟨items, hok, hlen, _, _⟩ := (importSession_spec exZip3).2.2 exEntries rfl
  exact ⟨items, hok, by rw [hlen]; rfl⟩

-- Claim C9 ------------------------------------------------------------------

/-- A successful item whose file name contains a double quote. -/
def exC9 : ImageFile := { id := "c9", fileName := "a\"b", state := ProcessingState.success }

/-- C9 counterexample: the Filename cell (like the Categories cell) is
wrapped in quotes verbatim, without doubling internal double quotes, so
the produced row differs from the row the claim mandates for string
fields; the produced output is shown with the undoubled quote. -/
theorem csv_export_counterexample :
    csvRow exC9 ≠ joinWith ","
      [csvEscaped exC9.fileName,
       csvEscaped exC9.meta.editedDescription,
       csvEscaped exC9.meta.editedKeywords,
       csvQuote (translateCategory exC9.meta.editedCategory),
       csvQuote "No", csvQuote "No", csvQuote "No"] ∧
    handleExportCsv [exC9]
      = some ("\uFEFF" ++ joinWith "," csvHeaders ++ "\n"
          ++ "\"a\"b\",\"\",\"\",\"\",\"No\",\"No\",\"No\"") := by
  constructor
  · decide
  · decide

/-- C9 (amended): CSV export prefixes the byte-order marker and emits the
fixed header line plus one row per successful item in order; Description
and Keywords cells are double-quoted with internal quotes doubled;
Filename and Categories cells are double-quoted verbatim (internal quotes
not doubled); the category goes through the translation table when an
entry exists and is used verbatim otherwise; Editorial is Yes or No by the
flag, and the Mature content and illustration cells are always No. -/
theorem csv_export_amended (files : List ImageFile) :
    (∀ out, handleExportCsv files = some out →
      jsStartsWith out "\uFEFF" = true ∧
      out = "\uFEFF" ++ joinWith "\n"
        (joinWith "," csvHeaders ::
          (files.filter fun f => f.state = ProcessingState.success).map csvRow)) ∧
    (∀ f : ImageFile, csvRow f = joinWith ","
      [csvQuote f.fileName,
       csvEscaped f.meta.editedDescription,
       csvEscaped f.meta.editedKeywords,
       csvQuote (translateCategory f.meta.editedCategory),
       if f.meta.editedIsEditorial then csvQuote "Yes" else csvQuote "No",
       csvQuote "No", csvQuote "No"]) ∧
    csvEscaped "He said \"hi\"" = "\"He said \"\"hi\"\"\"" ∧
    (handleExportCsv files = none ↔
      (files.filter fun f => f.state = ProcessingState.success) = []) := by
  refine ⟨?_, fun f => rfl, by decide, ?_⟩
  · intro out hout
    unfold handleExportCsv at hout
    split at hout
    · exact absurd hout (by simp)
    · have hval := (Option.some.injEq _ _).mp hout
      subst hval
      refine ⟨?_, rfl⟩
      unfold jsStartsWith
      rw [List.isPrefixOf_iff_prefix]
      rw [String.data_append]
      exact List.prefix_append _ _
  · unfold handleExportCsv
    split
    · rename_i hemp
      simp only [List.isEmpty_iff] at hemp
      simp [hemp]
    · rename_i hemp
      simp only [List.isEmpty_iff] at hemp
      simp [hemp]

/-- A successful item whose description contains a double quote. -/
def exC9w : ImageFile :=
  { id := "c9w", fileName := "w.jpg", state := ProcessingState.success,
    meta := { editedDescription := "He said \"hi\"" } }

/-- Witness for the amended C9: the export of one successful item starts
with the byte-order marker and its description cell doubles the quote. -/
theorem csv_export_amended_witness :
    ∃ out, handleExportCsv [exC9w] = some out ∧ jsStartsWith out "\uFEFF" = true := by
  have h := (csv_export_amended [exC9w]).1
  refine ⟨"\uFEFF" ++ joinWith "\n"
    (joinWith "," csvHeaders ::
      ([exC9w].filter fun f => f.state = ProcessingState.success).map csvRow), rfl, ?_⟩
  exact (h _ rfl).1

-- Claim C10 -----------------------------------------------------------------

/-- C10: after saving a usage total on day D, a read on a different day
returns 0 and discards the stale record, while a read on day D returns
exactly the saved value and keeps the record. -/
theorem quota_daily_reset (store : Option StoredUsage) (d d' : String) (n : Nat) :
    (d' ≠ d →
      getTodaysTokenUsage (saveTodaysTokenUsage store d n) d' = (none, 0)) ∧
    getTodaysTokenUsage (saveTodaysTokenUsage store d n) d = (some ⟨d, n⟩, n) := by
  constructor
  · intro h
    show (if d = d' then (some (⟨d, n⟩ : StoredUsage), n) else (none, 0)) = (none, 0)
    rw [if_neg (fun hh => h hh.symm)]
  · show (if d = d then (some (⟨d, n⟩ : StoredUsage), n) else (none, 0))
      = (some (⟨d, n⟩ : StoredUsage), n)
    rw [if_pos rfl]

/-- Witness for C10: usage saved on one date reads as 0 the next day. -/
theorem quota_daily_reset_witness :
    getTodaysTokenUsage (saveTodaysTokenUsage none "2026-10-11" 500) "2026-10-12"
      = (none, 0) :=
  (quota_daily_reset none "2026-10-11" "2026-10-12" 500).1 (by decide)

end PhotoTagger
